import Mathlib

/-!
# Verification of the proxy-rotated job scheduler of MediaTranscriber

Shallow embedding of `WebScrapingJobLauncher` (src/main.py, lines 170-233): the
outer scheduler loop that drives a list of transcription jobs to completion over
a shared, depleting proxy pool.

Modelling notes, keyed to the source:

* `JobStatus` (imported in main.py from `WebScraper.WebScrapingUtility`, a file
  that is not in the sources) is the bounded outcome set used at lines 209-226;
  the spec (section 3, "Outcome") fixes the same three variants.
* A proxy is the pair of the `ip` and `port` fields read at line 206; the spec
  (section 3, "ProxyRecord") makes host+port the identity of a record and the
  initial pool duplicate-free.  Theorems that depend on duplicate-freedom take
  it as an explicit hypothesis.
* Jobs are modelled by their index into the loaded job list.  The job objects
  produced by `GenerateJobsFromVideo` (not in the sources) are, per the spec
  (section 3, "Job"), created with `completed = false`, monotonically settable
  to true; the per-job data the engine reads is the pre-existence of the output
  artifact (`os.path.isfile(job.GetHTMLOutputFilePath())`, line 186), a boolean
  fixed at Init and given here as the list `artifactExists`.
* `WriteJson` (imported from `Utility.FileUtil`, not in the sources) is
  modelled from the spec: per section 4.1 and section 7 ("ResourceFatal") a
  persistence-write failure is reported and does not abort the run, the
  in-memory pool remaining authoritative.  The oracle decides which writes
  succeed; a failed write leaves the backing store unchanged and bumps the
  report counter.
* `job.Lock.locked()` (line 194) is always false when tested: each round's
  `ThreadPoolExecutor` context joins all its attempt threads before the sweep
  proceeds, so no attempt is in flight when the scheduler re-scans the jobs.
  The check is therefore not represented.
* `time.sleep(2)` (line 231) and all logging have no observable effect on the
  engine state and are not represented.
* Concurrency inside one round is captured by an oracle: each proxy in the
  round's snapshot gets exactly one attempt (one future per proxy, line 200),
  whose classified outcome is `out`, and `as_completed` (line 202) yields the
  futures in an arbitrary order `ord`, constrained (where a claim needs it) to
  be a permutation of the snapshot.
* The state fields `invoked`, `marks` and `persistFails` are observation logs
  (submissions of the work function, `job.IsCompleted = True` assignments,
  reported persistence failures); no branch of the engine reads them.
-/

/-- Outcome of one upload attempt, as consumed at src/main.py lines 209-226.
The enum itself lives in `WebScraper.WebScrapingUtility`, which is not in the
sources; the spec (section 3) fixes the same three variants. -/
inductive JobStatus where
  | Success
  | PageConnectionError
  | GenericError
deriving DecidableEq, Repr

/-- A proxy record, identified by its `ip` and `port` fields (src/main.py line
206; spec section 3: host+port is the uniqueness key of a ProxyRecord). -/
structure ProxyRecord where
  ip : String
  port : Nat
deriving DecidableEq, Repr

/-- `f"{proxy['ip']}:{proxy['port']}"` (src/main.py line 206), the key of the
`proxy_failures` dictionary. -/
def proxy_str (p : ProxyRecord) : String :=
  p.ip ++ ":" ++ toString p.port

/-- `proxy_failures.get(proxy_str, 0)` (src/main.py line 220). -/
def getTally : List (String × Nat) → String → Nat
  | [], _ => 0
  | (k, c) :: rest, key => if k = key then c else getTally rest key

/-- `proxy_failures[proxy_str] = c` (src/main.py line 220): replace the entry
if the key is present, append it otherwise (Python dict assignment). -/
def setTally : List (String × Nat) → String → Nat → List (String × Nat)
  | [], key, c => [(key, c)]
  | (k, v) :: rest, key, c =>
      if k = key then (key, c) :: rest else (k, v) :: setTally rest key c

/-- `del proxy_failures[proxy_str]` (src/main.py line 224). -/
def delTally : List (String × Nat) → String → List (String × Nat)
  | [], _ => []
  | (k, v) :: rest, key => if k = key then rest else (k, v) :: delTally rest key

/-- `proxy_str in proxy_failures`: whether the tally has an entry for the key. -/
def hasTally : List (String × Nat) → String → Bool
  | [], _ => false
  | (k, _) :: rest, key => if k = key then true else hasTally rest key

/-- `MAX_RETRIES = 3` (src/main.py line 181). -/
def MAX_RETRIES : Nat := 3

/-- The mutable state of one `WebScrapingJobLauncher` run.  `proxy_list`,
`proxy_failures` and `incomplete_jobs` are the local variables of the same
names; `completed` holds each job's `IsCompleted` flag (jobs are indices into
the loaded job list); `persisted` is the current content of `PROXY_FILE`;
`invoked`, `marks` and `persistFails` are observation logs (see module
comment). -/
structure EngineState where
  proxy_list : List ProxyRecord
  proxy_failures : List (String × Nat)
  completed : List Bool
  incomplete_jobs : List Nat
  persisted : List ProxyRecord
  invoked : List (Nat × ProxyRecord)
  marks : List Nat
  persistFails : Nat
deriving DecidableEq, Repr

/-- `WriteJson(PROXY_FILE, proxy_list)` (src/main.py lines 218, 225).
Modelled from the spec: the body of `WriteJson` is in `Utility.FileUtil`,
which is not in the sources; per spec sections 4.1 and 7 a failed durable
write is reported and the run continues with the in-memory pool.  `ok` is the
oracle's verdict for this write: on success the backing store receives the
current pool, on failure it is left unchanged and the report log is bumped. -/
def WriteJson (ok : Bool) (S : EngineState) : EngineState :=
  { S with
    persisted := if ok then S.proxy_list else S.persisted
    persistFails := if ok then S.persistFails else S.persistFails + 1 }

/-- The `for future in as_completed(futures)` body (src/main.py lines 202-226)
for the round of job `j`: consume the classified outcomes in completion order.
`Success` marks the job completed, removes it from `incomplete_jobs` and
breaks (the remaining outcomes of the round are never retrieved);
`PageConnectionError` evicts the proxy and persists the pool;
`GenericError` bumps the proxy's failure tally and, once it reaches
`MAX_RETRIES`, evicts the proxy, clears the tally entry and persists.
`pok` is the persistence-write oracle for this round (see `WriteJson`). -/
def runAttempts (j : Nat) (pok : ProxyRecord → Bool) :
    List (ProxyRecord × JobStatus) → EngineState → EngineState
  | [], S => S
  | (proxy, status) :: rest, S =>
    match status with
    | .Success =>
        -- job.IsCompleted = True; if job in incomplete_jobs: remove; break
        { S with
          completed := S.completed.set j true
          incomplete_jobs :=
            if j ∈ S.incomplete_jobs then S.incomplete_jobs.erase j
            else S.incomplete_jobs
          marks := S.marks ++ [j] }
    | .PageConnectionError =>
        -- if proxy in proxy_list: proxy_list.remove(proxy); WriteJson(...)
        let S1 :=
          if proxy ∈ S.proxy_list then
            WriteJson (pok proxy) { S with proxy_list := S.proxy_list.erase proxy }
          else S
        runAttempts j pok rest S1
    | .GenericError =>
        -- proxy_failures[s] = proxy_failures.get(s, 0) + 1
        -- if proxy_failures[s] >= MAX_RETRIES:
        --     if proxy in proxy_list: proxy_list.remove(proxy)
        --     del proxy_failures[s]; WriteJson(...)
        let key := proxy_str proxy
        let c := getTally S.proxy_failures key + 1
        let S1 := { S with proxy_failures := setTally S.proxy_failures key c }
        if MAX_RETRIES ≤ c then
          let S2 :=
            { S1 with
              proxy_list :=
                if proxy ∈ S1.proxy_list then S1.proxy_list.erase proxy
                else S1.proxy_list
              proxy_failures := delTally S1.proxy_failures key }
          runAttempts j pok rest (WriteJson (pok proxy) S2)
        else
          runAttempts j pok rest S1

/-- The nondeterminism of one run, resolved up front: `out s j p` is the
classified outcome of the single attempt submitted for proxy `p` in the round
for job `j` of sweep `s` (one future per proxy, src/main.py line 200); `ord s
j` is the order in which `as_completed` yields that round's futures (faithful
runs make it a permutation of the snapshot — theorems that need this take it
as a hypothesis); `pok s j p` tells whether the `WriteJson` call triggered by
proxy `p`'s outcome in that round succeeds. -/
structure Oracle where
  out : Nat → Nat → ProxyRecord → JobStatus
  ord : Nat → Nat → List ProxyRecord → List ProxyRecord
  pok : Nat → Nat → ProxyRecord → Bool

/-- One sweep of `for job in list(incomplete_jobs)` (src/main.py lines
193-229): for each job of the sweep's snapshot, take the current pool
snapshot, submit one attempt per proxy (logged in `invoked`) and consume the
outcomes with `runAttempts`.  The `job.Lock.locked()` test (line 194) is
always false here (see module comment) and the post-round log at lines
228-229 has no state effect. -/
def sweepJobs (orc : Oracle) (sIdx : Nat) :
    List Nat → EngineState → EngineState
  | [], S => S
  | j :: rest, S =>
      let snapshot := S.proxy_list
      let S0 := { S with invoked := S.invoked ++ snapshot.map (fun p => (j, p)) }
      let S1 :=
        runAttempts j (orc.pok sIdx j)
          ((orc.ord sIdx j snapshot).map (fun p => (p, orc.out sIdx j p))) S0
      sweepJobs orc sIdx rest S1

/-- The `while proxy_list:` loop (src/main.py lines 192-231) plus the final
`return all(job.IsCompleted for job in video_jobs)` (line 233), with explicit
fuel: each unit of fuel allows one test of the while-condition followed by one
sweep.  Returns `(some result, final state)` when the loop exits within the
given fuel and `(none, state reached)` otherwise. -/
def runLoop (orc : Oracle) : Nat → Nat → EngineState → Option Bool × EngineState
  | 0, _, S => (none, S)
  | fuel + 1, sIdx, S =>
      if S.proxy_list = [] then
        (some (S.completed.all (fun b => b)), S)
      else
        runLoop orc fuel (sIdx + 1) (sweepJobs orc sIdx S.incomplete_jobs S)

/-- The state of `WebScrapingJobLauncher` just after lines 182-186 of
src/main.py: fresh failure tally, every job's `IsCompleted` false (spec
section 3: jobs are created with `completed = false`),
`incomplete_jobs = [job for job in video_jobs if not isfile(output)]`, pool as
returned by `getProxyList`, and `persisted0` the current content of
`PROXY_FILE`. -/
def initState (artifactExists : List Bool) (proxy_list persisted0 : List ProxyRecord) :
    EngineState :=
  { proxy_list := proxy_list
    proxy_failures := []
    completed := List.replicate artifactExists.length false
    incomplete_jobs :=
      (List.range artifactExists.length).filter
        (fun j => ! artifactExists.getD j true)
    persisted := persisted0
    invoked := []
    marks := []
    persistFails := 0 }

/-- `WebScrapingJobLauncher` (src/main.py lines 170-233).  `artifactExists j`
is whether job `j`'s output artifact already exists at Init (line 186);
`proxy_list` is the pool loaded by `getProxyList` (line 184); `persisted0` is
the initial content of `PROXY_FILE`.  If no job is incomplete the function
returns true immediately (lines 188-190); otherwise the while-loop runs.  The
final engine state is returned alongside the boolean for specification
purposes. -/
def WebScrapingJobLauncher (orc : Oracle) (fuel : Nat)
    (artifactExists : List Bool) (proxy_list persisted0 : List ProxyRecord) :
    Option Bool × EngineState :=
  let S0 := initState artifactExists proxy_list persisted0
  if S0.incomplete_jobs = [] then (some true, S0)
  else runLoop orc fuel 0 S0

/-- `job.IsCompleted` for job index `j`. -/
def flagAt (flags : List Bool) (j : Nat) : Bool :=
  flags.getD j false

/-! ## Basic list and tally helper lemmas -/

theorem getD_set_ne (l : List Bool) (i j : Nat) (a d : Bool) (h : i ≠ j) :
    (l.set i a).getD j d = l.getD j d := by
  induction l generalizing i j with
  | nil => rfl
  | cons x xs ih =>
    cases i with
    | zero =>
      cases j with
      | zero => exact absurd rfl h
      | succ j => rfl
    | succ i =>
      cases j with
      | zero => rfl
      | succ j =>
        simpa using ih i j (fun hc => h (by omega))

theorem getD_set_self (l : List Bool) (j : Nat) (a d : Bool) (h : j < l.length) :
    (l.set j a).getD j d = a := by
  induction l generalizing j with
  | nil => simp at h
  | cons x xs ih =>
    cases j with
    | zero => rfl
    | succ j => simpa using ih j (by simpa using h)

theorem lt_length_of_getD_true_eq_false (l : List Bool) (j : Nat)
    (h : l.getD j true = false) : j < l.length := by
  by_contra hc
  rw [List.getD_eq_default l true (by omega)] at h
  cases h

theorem lt_length_of_flagAt_true (l : List Bool) (j : Nat)
    (h : flagAt l j = true) : j < l.length := by
  by_contra hc
  unfold flagAt at h
  rw [List.getD_eq_default l false (by omega)] at h
  cases h

theorem getD_replicate_false (n j : Nat) (h : j < n) :
    (List.replicate n false).getD j true = false := by
  induction n generalizing j with
  | zero => omega
  | succ n ih =>
    cases j with
    | zero => rfl
    | succ j =>
      rw [List.replicate_succ, List.getD_cons_succ]
      exact ih j (by omega)

theorem all_id_eq_false_of_getD (l : List Bool) (j : Nat)
    (h : l.getD j true = false) : l.all (fun b => b) = false := by
  induction l generalizing j with
  | nil => cases h
  | cons x xs ih =>
    cases j with
    | zero =>
      subst h
      simp
    | succ j =>
      have := ih j (by simpa using h)
      simp only [List.all_cons, this, Bool.and_false]

theorem getTally_setTally_self (fs : List (String × Nat)) (k : String) (c : Nat) :
    getTally (setTally fs k c) k = c := by
  induction fs with
  | nil => simp [setTally, getTally]
  | cons kv rest ih =>
    by_cases h : kv.1 = k
    · simp [setTally, getTally, h]
    · simp [setTally, getTally, h, ih]

theorem hasTally_delTally_setTally (fs : List (String × Nat)) (k : String) (c : Nat)
    (hnd : (fs.map Prod.fst).Nodup) :
    hasTally (delTally (setTally fs k c) k) k = false := by
  induction fs with
  | nil => simp [setTally, delTally, hasTally]
  | cons kv rest ih =>
    have hnd' : (rest.map Prod.fst).Nodup := (List.nodup_cons.mp hnd).2
    have hk1 : kv.1 ∉ rest.map Prod.fst := (List.nodup_cons.mp hnd).1
    by_cases h : kv.1 = k
    · -- the head is replaced then deleted; the key cannot recur in rest
      subst h
      simp only [setTally, if_pos rfl, delTally, if_pos rfl]
      clear ih hnd hnd'
      induction rest with
      | nil => rfl
      | cons kv2 rest2 ih2 =>
        have h2 : kv2.1 ≠ kv.1 := by
          intro hc
          exact hk1 (by simp [hc])
        simp only [hasTally, if_neg h2]
        exact ih2 (by intro hc; exact hk1 (by simp [hc]))
    · simp only [setTally, if_neg h, delTally, if_neg h, hasTally, if_neg h]
      exact ih hnd'

theorem nodup_append_singleton {l : List Nat} {a : Nat}
    (h : l.Nodup) (ha : a ∉ l) : (l ++ [a]).Nodup := by
  rw [List.nodup_append]
  refine ⟨h, List.nodup_singleton a, ?_⟩
  intro x hx hx'
  simp only [List.mem_singleton] at hx'
  subst hx'
  exact ha hx

/-! ## Structural lemmas about one round (`runAttempts`) -/

@[simp]
theorem WriteJson_proxy_list (ok : Bool) (S : EngineState) :
    (WriteJson ok S).proxy_list = S.proxy_list := rfl

@[simp]
theorem WriteJson_proxy_failures (ok : Bool) (S : EngineState) :
    (WriteJson ok S).proxy_failures = S.proxy_failures := rfl

@[simp]
theorem WriteJson_completed (ok : Bool) (S : EngineState) :
    (WriteJson ok S).completed = S.completed := rfl

@[simp]
theorem WriteJson_incomplete_jobs (ok : Bool) (S : EngineState) :
    (WriteJson ok S).incomplete_jobs = S.incomplete_jobs := rfl

@[simp]
theorem WriteJson_invoked (ok : Bool) (S : EngineState) :
    (WriteJson ok S).invoked = S.invoked := rfl

@[simp]
theorem WriteJson_marks (ok : Bool) (S : EngineState) :
    (WriteJson ok S).marks = S.marks := rfl

/-- A round never touches the submission log. -/
theorem ra_invoked (j : Nat) (pok : ProxyRecord → Bool) :
    ∀ (l : List (ProxyRecord × JobStatus)) (S : EngineState),
      (runAttempts j pok l S).invoked = S.invoked := by
  intro l
  induction l with
  | nil => intro S; rfl
  | cons hd rest ih =>
    intro S
    obtain ⟨proxy, status⟩ := hd
    cases status with
    | Success => rfl
    | PageConnectionError =>
      simp only [runAttempts]
      by_cases hmem : proxy ∈ S.proxy_list
      · simp only [if_pos hmem]
        rw [ih]
        rfl
      · simp only [if_neg hmem]
        exact ih S
    | GenericError =>
      simp only [runAttempts]
      by_cases hc : MAX_RETRIES ≤ getTally S.proxy_failures (proxy_str proxy) + 1
      · simp only [if_pos hc]
        rw [ih]
        rfl
      · simp only [if_neg hc]
        rw [ih]

/-- A round leaves `incomplete_jobs` unchanged or removes exactly the round's
own job (on the first Success). -/
theorem ra_incomplete_cases (j : Nat) (pok : ProxyRecord → Bool) :
    ∀ (l : List (ProxyRecord × JobStatus)) (S : EngineState),
      (runAttempts j pok l S).incomplete_jobs = S.incomplete_jobs ∨
      (runAttempts j pok l S).incomplete_jobs = S.incomplete_jobs.erase j := by
  intro l
  induction l with
  | nil => intro S; exact Or.inl rfl
  | cons hd rest ih =>
    intro S
    obtain ⟨proxy, status⟩ := hd
    cases status with
    | Success =>
      by_cases hmem : j ∈ S.incomplete_jobs
      · right
        simp only [runAttempts, if_pos hmem]
      · left
        simp only [runAttempts, if_neg hmem]
    | PageConnectionError =>
      simp only [runAttempts]
      by_cases hmem : proxy ∈ S.proxy_list
      · simp only [if_pos hmem]
        exact ih _
      · simp only [if_neg hmem]
        exact ih S
    | GenericError =>
      simp only [runAttempts]
      by_cases hc : MAX_RETRIES ≤ getTally S.proxy_failures (proxy_str proxy) + 1
      · simp only [if_pos hc]
        exact ih _
      · simp only [if_neg hc]
        exact ih _

/-- The pool after a round is an order-preserving sublist of the pool before:
a round only ever removes proxies. -/
theorem ra_pool_sublist (j : Nat) (pok : ProxyRecord → Bool) :
    ∀ (l : List (ProxyRecord × JobStatus)) (S : EngineState),
      List.Sublist (runAttempts j pok l S).proxy_list S.proxy_list := by
  intro l
  induction l with
  | nil => intro S; exact List.Sublist.refl _
  | cons hd rest ih =>
    intro S
    obtain ⟨proxy, status⟩ := hd
    cases status with
    | Success => exact List.Sublist.refl _
    | PageConnectionError =>
      simp only [runAttempts]
      by_cases hmem : proxy ∈ S.proxy_list
      · simp only [if_pos hmem]
        exact ((ih _).trans (by simpa using List.erase_sublist proxy S.proxy_list))
      · simp only [if_neg hmem]
        exact ih S
    | GenericError =>
      simp only [runAttempts]
      by_cases hc : MAX_RETRIES ≤ getTally S.proxy_failures (proxy_str proxy) + 1
      · simp only [if_pos hc]
        refine (ih _).trans ?_
        by_cases hmem : proxy ∈ S.proxy_list
        · simpa [hmem] using List.erase_sublist proxy S.proxy_list
        · simp [hmem]
      · simp only [if_neg hc]
        exact ih _

/-- A proxy absent from the pool stays absent through a round. -/
theorem ra_not_mem_pool (j : Nat) (pok : ProxyRecord → Bool)
    (l : List (ProxyRecord × JobStatus)) (S : EngineState) (p : ProxyRecord)
    (h : p ∉ S.proxy_list) : p ∉ (runAttempts j pok l S).proxy_list :=
  fun hmem => h ((ra_pool_sublist j pok l S).subset hmem)

/-- A true `IsCompleted` flag survives a round (flags are only ever set to
true). -/
theorem ra_flag_mono (j : Nat) (pok : ProxyRecord → Bool) (i : Nat) :
    ∀ (l : List (ProxyRecord × JobStatus)) (S : EngineState),
      flagAt S.completed i = true →
      flagAt (runAttempts j pok l S).completed i = true := by
  intro l
  induction l with
  | nil => intro S h; exact h
  | cons hd rest ih =>
    intro S h
    obtain ⟨proxy, status⟩ := hd
    cases status with
    | Success =>
      show flagAt (S.completed.set j true) i = true
      by_cases hij : i = j
      · subst hij
        have hlt : i < S.completed.length := lt_length_of_flagAt_true _ _ h
        unfold flagAt
        rw [getD_set_self _ _ _ _ hlt]
      · unfold flagAt at h ⊢
        rw [getD_set_ne _ _ _ _ _ (fun hc => hij hc.symm)]
        exact h
    | PageConnectionError =>
      simp only [runAttempts]
      by_cases hmem : proxy ∈ S.proxy_list
      · simp only [if_pos hmem]
        exact ih _ h
      · simp only [if_neg hmem]
        exact ih S h
    | GenericError =>
      simp only [runAttempts]
      by_cases hc : MAX_RETRIES ≤ getTally S.proxy_failures (proxy_str proxy) + 1
      · simp only [if_pos hc]
        exact ih _ h
      · simp only [if_neg hc]
        exact ih _ h

/-- A proxy gone from both the pool and the backing store stays gone through a
round: every persisted value is a copy of a pool that no longer contains it. -/
theorem ra_absent (j : Nat) (pok : ProxyRecord → Bool) (p : ProxyRecord) :
    ∀ (l : List (ProxyRecord × JobStatus)) (S : EngineState),
      p ∉ S.proxy_list → p ∉ S.persisted →
      p ∉ (runAttempts j pok l S).proxy_list ∧
      p ∉ (runAttempts j pok l S).persisted := by
  intro l
  induction l with
  | nil => intro S h1 h2; exact ⟨h1, h2⟩
  | cons hd rest ih =>
    intro S h1 h2
    obtain ⟨proxy, status⟩ := hd
    cases status with
    | Success => exact ⟨h1, h2⟩
    | PageConnectionError =>
      simp only [runAttempts]
      by_cases hmem : proxy ∈ S.proxy_list
      · simp only [if_pos hmem]
        refine ih _ ?_ ?_
        · exact fun hc => h1 (List.mem_of_mem_erase hc)
        · unfold WriteJson
          by_cases hok : pok proxy
          · simp only [if_pos hok]
            exact fun hc => h1 (List.mem_of_mem_erase hc)
          · simp only [if_neg hok]
            exact h2
      · simp only [if_neg hmem]
        exact ih S h1 h2
    | GenericError =>
      simp only [runAttempts]
      by_cases hc : MAX_RETRIES ≤ getTally S.proxy_failures (proxy_str proxy) + 1
      · simp only [if_pos hc]
        by_cases hmem : proxy ∈ S.proxy_list
        · simp only [if_pos hmem]
          refine ih _ ?_ ?_
          · exact fun hx => h1 (List.mem_of_mem_erase hx)
          · unfold WriteJson
            by_cases hok : pok proxy
            · simp only [if_pos hok]
              exact fun hx => h1 (List.mem_of_mem_erase hx)
            · simp only [if_neg hok]
              exact h2
        · simp only [if_neg hmem]
          refine ih _ h1 ?_
          unfold WriteJson
          by_cases hok : pok proxy
          · simp only [if_pos hok]
            exact h1
          · simp only [if_neg hok]
            exact h2
      · simp only [if_neg hc]
        exact ih _ h1 h2

/-! ## The winning proxy stays in the pool -/

/-- In a faithful round (one outcome per proxy, given by the outcome function
`f`), if the round changes `incomplete_jobs` — i.e. a Success was observed —
then the pool after the round is nonempty: the proxies erased before the
break all had non-Success outcomes, so the succeeding proxy is still there. -/
theorem ra_success_pool (j : Nat) (pok : ProxyRecord → Bool)
    (f : ProxyRecord → JobStatus) :
    ∀ (ps : List ProxyRecord) (S : EngineState),
      (∀ p ∈ ps, f p = JobStatus.Success → p ∈ S.proxy_list) →
      (runAttempts j pok (ps.map (fun p => (p, f p))) S).incomplete_jobs ≠
        S.incomplete_jobs →
      (runAttempts j pok (ps.map (fun p => (p, f p))) S).proxy_list ≠ [] := by
  intro ps
  induction ps with
  | nil => intro S hsucc hch; exact absurd rfl hch
  | cons p rest ih =>
    intro S hsucc hch
    simp only [List.map_cons] at hch ⊢
    cases hf : f p with
    | Success =>
      have hp : p ∈ S.proxy_list := hsucc p (by simp) hf
      simp only [runAttempts]
      exact List.ne_nil_of_mem hp
    | PageConnectionError =>
      rw [hf] at hch
      simp only [runAttempts] at hch ⊢
      by_cases hmem : p ∈ S.proxy_list
      · simp only [if_pos hmem] at hch ⊢
        refine ih _ ?_ hch
        intro q hq hfq
        have hqp : q ≠ p := by
          intro hc
          rw [hc, hf] at hfq
          cases hfq
        have hqS : q ∈ S.proxy_list := hsucc q (by simp [hq]) hfq
        show q ∈ S.proxy_list.erase p
        exact (List.mem_erase_of_ne hqp).mpr hqS
      · simp only [if_neg hmem] at hch ⊢
        refine ih _ ?_ hch
        intro q hq hfq
        exact hsucc q (by simp [hq]) hfq
    | GenericError =>
      rw [hf] at hch
      simp only [runAttempts] at hch ⊢
      by_cases hc : MAX_RETRIES ≤ getTally S.proxy_failures (proxy_str p) + 1
      · simp only [if_pos hc] at hch ⊢
        refine ih _ ?_ hch
        intro q hq hfq
        have hqp : q ≠ p := by
          intro hceq
          rw [hceq, hf] at hfq
          cases hfq
        have hqS : q ∈ S.proxy_list := hsucc q (by simp [hq]) hfq
        by_cases hmem : p ∈ S.proxy_list
        · simpa [hmem] using (List.mem_erase_of_ne hqp).mpr hqS
        · simpa [hmem] using hqS
      · simp only [if_neg hc] at hch ⊢
        refine ih _ ?_ hch
        intro q hq hfq
        exact hsucc q (by simp [hq]) hfq

/-! ## The run-wide state invariant -/

/-- Invariant tying a run's state together: the incomplete list is
duplicate-free and holds exactly jobs whose artifact is missing and whose
flag is still false; the flag table has one entry per loaded job; the work
function was only ever invoked for jobs with a missing artifact; the mark log
is duplicate-free and only lists jobs whose flag is true. -/
def GoodState (artifacts : List Bool) (S : EngineState) : Prop :=
  S.incomplete_jobs.Nodup ∧
  S.marks.Nodup ∧
  S.completed.length = artifacts.length ∧
  (∀ j ∈ S.incomplete_jobs,
     artifacts.getD j true = false ∧ S.completed.getD j true = false) ∧
  (∀ e ∈ S.invoked, artifacts.getD e.1 true = false) ∧
  (∀ k ∈ S.marks, S.completed.getD k true = true)

theorem GoodState_runAttempts (artifacts : List Bool) (j : Nat)
    (pok : ProxyRecord → Bool) :
    ∀ (l : List (ProxyRecord × JobStatus)) (S : EngineState),
      GoodState artifacts S → j ∈ S.incomplete_jobs →
      GoodState artifacts (runAttempts j pok l S) := by
  intro l
  induction l with
  | nil => intro S hGS _; exact hGS
  | cons hd rest ih =>
    intro S hGS hj
    obtain ⟨h1, h2, h3, h4, h5, h6⟩ := hGS
    obtain ⟨proxy, status⟩ := hd
    cases status with
    | Success =>
      have hjlt : j < S.completed.length :=
        lt_length_of_getD_true_eq_false _ _ (h4 j hj).2
      have hjm : j ∉ S.marks := by
        intro hc
        have := h6 j hc
        rw [(h4 j hj).2] at this
        cases this
      show GoodState artifacts
        { S with
          completed := S.completed.set j true
          incomplete_jobs :=
            if j ∈ S.incomplete_jobs then S.incomplete_jobs.erase j
            else S.incomplete_jobs
          marks := S.marks ++ [j] }
      rw [if_pos hj]
      refine ⟨h1.erase j, nodup_append_singleton h2 hjm, ?_, ?_, h5, ?_⟩
      · rw [List.length_set]
        exact h3
      · intro k hk
        have hk2 : k ≠ j ∧ k ∈ S.incomplete_jobs := (h1.mem_erase_iff).mp hk
        refine ⟨(h4 k hk2.2).1, ?_⟩
        rw [getD_set_ne _ _ _ _ _ (fun hc => hk2.1 hc.symm)]
        exact (h4 k hk2.2).2
      · intro k hk
        rcases List.mem_append.mp hk with hk | hk
        · have hkj : k ≠ j := by
            intro hc
            rw [hc] at hk
            exact hjm hk
          rw [getD_set_ne _ _ _ _ _ (fun hc => hkj hc.symm)]
          exact h6 k hk
        · have : k = j := by simpa using hk
          subst this
          rw [getD_set_self _ _ _ _ hjlt]
    | PageConnectionError =>
      simp only [runAttempts]
      by_cases hmem : proxy ∈ S.proxy_list
      · simp only [if_pos hmem]
        exact ih _ ⟨h1, h2, h3, h4, h5, h6⟩ hj
      · simp only [if_neg hmem]
        exact ih _ ⟨h1, h2, h3, h4, h5, h6⟩ hj
    | GenericError =>
      simp only [runAttempts]
      by_cases hc : MAX_RETRIES ≤ getTally S.proxy_failures (proxy_str proxy) + 1
      · simp only [if_pos hc]
        exact ih _ ⟨h1, h2, h3, h4, h5, h6⟩ hj
      · simp only [if_neg hc]
        exact ih _ ⟨h1, h2, h3, h4, h5, h6⟩ hj

theorem GoodState_sweepJobs (artifacts : List Bool) (orc : Oracle) (sIdx : Nat) :
    ∀ (jl : List Nat) (S : EngineState),
      GoodState artifacts S → jl.Nodup → (∀ k ∈ jl, k ∈ S.incomplete_jobs) →
      GoodState artifacts (sweepJobs orc sIdx jl S) := by
  intro jl
  induction jl with
  | nil => intro S hGS _ _; exact hGS
  | cons j rest ih =>
    intro S hGS hnd hsub
    obtain ⟨h1, h2, h3, h4, h5, h6⟩ := hGS
    have hj : j ∈ S.incomplete_jobs := hsub j (by simp)
    simp only [sweepJobs]
    have hGS0 : GoodState artifacts
        { S with invoked := S.invoked ++ S.proxy_list.map (fun p => (j, p)) } := by
      refine ⟨h1, h2, h3, h4, ?_, h6⟩
      intro e he
      rcases List.mem_append.mp he with he | he
      · exact h5 e he
      · obtain ⟨p, _, hep⟩ := List.mem_map.mp he
        rw [← hep]
        exact (h4 j hj).1
    have hGS1 := GoodState_runAttempts artifacts j (orc.pok sIdx j)
      ((orc.ord sIdx j S.proxy_list).map (fun p => (p, orc.out sIdx j p)))
      { S with invoked := S.invoked ++ S.proxy_list.map (fun p => (j, p)) } hGS0 hj
    refine ih _ hGS1 (List.nodup_cons.mp hnd).2 ?_
    intro k hk
    have hkj : k ≠ j := by
      intro hc
      exact (List.nodup_cons.mp hnd).1 (hc ▸ hk)
    have hkS : k ∈ S.incomplete_jobs := hsub k (by simp [hk])
    rcases ra_incomplete_cases j (orc.pok sIdx j)
        ((orc.ord sIdx j S.proxy_list).map (fun p => (p, orc.out sIdx j p)))
        { S with invoked := S.invoked ++ S.proxy_list.map (fun p => (j, p)) } with
        hcase | hcase
    · rw [hcase]
      exact hkS
    · rw [hcase]
      exact (List.mem_erase_of_ne hkj).mpr hkS

theorem GoodState_runLoop (artifacts : List Bool) (orc : Oracle) :
    ∀ (fuel sIdx : Nat) (S : EngineState),
      GoodState artifacts S → GoodState artifacts (runLoop orc fuel sIdx S).2 := by
  intro fuel
  induction fuel with
  | zero => intro sIdx S hGS; exact hGS
  | succ fuel ih =>
    intro sIdx S hGS
    by_cases hp : S.proxy_list = []
    · simp only [runLoop, if_pos hp]
      exact hGS
    · simp only [runLoop, if_neg hp]
      exact ih _ _ (GoodState_sweepJobs artifacts orc sIdx _ S hGS hGS.1
        (fun k hk => hk))

theorem GoodState_initState (artifacts : List Bool)
    (pool0 pers0 : List ProxyRecord) :
    GoodState artifacts (initState artifacts pool0 pers0) := by
  refine ⟨(List.nodup_range _).filter _, List.nodup_nil, List.length_replicate .., ?_,
    ?_, ?_⟩
  · intro j hj
    have hpred := List.of_mem_filter hj
    have hlt : j < artifacts.length := List.mem_range.mp (List.mem_of_mem_filter hj)
    constructor
    · simpa using hpred
    · exact getD_replicate_false _ _ hlt
  · intro e he
    cases he
  · intro k hk
    cases hk

/-! ## Sweep- and loop-level lemmas -/

/-- The pool after a sweep is an order-preserving sublist of the pool before. -/
theorem sweep_pool_sublist (orc : Oracle) (sIdx : Nat) :
    ∀ (jl : List Nat) (S : EngineState),
      List.Sublist (sweepJobs orc sIdx jl S).proxy_list S.proxy_list := by
  intro jl
  induction jl with
  | nil => intro S; exact List.Sublist.refl _
  | cons j rest ih =>
    intro S
    simp only [sweepJobs]
    exact (ih _).trans (ra_pool_sublist j (orc.pok sIdx j) _ _)

/-- The pool at any point of the loop is an order-preserving sublist of the
pool at entry. -/
theorem runLoop_pool_sublist (orc : Oracle) :
    ∀ (fuel sIdx : Nat) (S : EngineState),
      List.Sublist (runLoop orc fuel sIdx S).2.proxy_list S.proxy_list := by
  intro fuel
  induction fuel with
  | zero => intro sIdx S; exact List.Sublist.refl _
  | succ fuel ih =>
    intro sIdx S
    by_cases hp : S.proxy_list = []
    · simp only [runLoop, if_pos hp]
      exact List.Sublist.refl _
    · simp only [runLoop, if_neg hp]
      exact (ih _ _).trans (sweep_pool_sublist orc sIdx _ S)

/-- A true completion flag survives a sweep. -/
theorem sweep_flag_mono (orc : Oracle) (sIdx i : Nat) :
    ∀ (jl : List Nat) (S : EngineState),
      flagAt S.completed i = true →
      flagAt (sweepJobs orc sIdx jl S).completed i = true := by
  intro jl
  induction jl with
  | nil => intro S h; exact h
  | cons j rest ih =>
    intro S h
    simp only [sweepJobs]
    exact ih _ (ra_flag_mono j (orc.pok sIdx j) i _ _ h)

/-- A true completion flag survives the rest of the loop. -/
theorem runLoop_flag_mono (orc : Oracle) (i : Nat) :
    ∀ (fuel sIdx : Nat) (S : EngineState),
      flagAt S.completed i = true →
      flagAt (runLoop orc fuel sIdx S).2.completed i = true := by
  intro fuel
  induction fuel with
  | zero => intro sIdx S h; exact h
  | succ fuel ih =>
    intro sIdx S h
    by_cases hp : S.proxy_list = []
    · simp only [runLoop, if_pos hp]
      exact h
    · simp only [runLoop, if_neg hp]
      exact ih _ _ (sweep_flag_mono orc sIdx i _ S h)

/-- Running the loop with more fuel can only keep or extend the set of true
completion flags. -/
theorem runLoop_fuel_mono (orc : Oracle) (i : Nat) :
    ∀ (fuel fuel' sIdx : Nat) (S : EngineState), fuel ≤ fuel' →
      flagAt (runLoop orc fuel sIdx S).2.completed i = true →
      flagAt (runLoop orc fuel' sIdx S).2.completed i = true := by
  intro fuel
  induction fuel with
  | zero =>
    intro fuel' sIdx S _ h
    exact runLoop_flag_mono orc i fuel' sIdx S h
  | succ fuel ih =>
    intro fuel' sIdx S hle h
    cases fuel' with
    | zero => omega
    | succ fuel' =>
      by_cases hp : S.proxy_list = []
      · simp only [runLoop, if_pos hp] at h ⊢
        exact h
      · simp only [runLoop, if_neg hp] at h ⊢
        exact ih fuel' _ _ (by omega) h

/-- If a sweep starts with some incomplete job and ends with none, the pool it
leaves is nonempty: every job of the sweep's snapshot completed in its own
round, and the last such round broke on a Success whose proxy is still in the
pool; no later round ran. -/
theorem sweep_complete_pool_ne_nil (orc : Oracle) (sIdx : Nat)
    (Hord : ∀ (s i : Nat) (l : List ProxyRecord), (orc.ord s i l).Perm l) :
    ∀ (jl : List Nat) (S : EngineState), jl.Nodup →
      (∀ k ∈ jl, k ∈ S.incomplete_jobs) →
      S.incomplete_jobs ≠ [] →
      (sweepJobs orc sIdx jl S).incomplete_jobs = [] →
      (sweepJobs orc sIdx jl S).proxy_list ≠ [] := by
  intro jl
  induction jl with
  | nil => intro S _ _ hne hempty; exact absurd hempty hne
  | cons j rest ih =>
    intro S hnd hsub hne hempty
    simp only [sweepJobs] at hempty ⊢
    by_cases hch :
        (runAttempts j (orc.pok sIdx j)
          ((orc.ord sIdx j S.proxy_list).map (fun p => (p, orc.out sIdx j p)))
          { S with invoked := S.invoked ++ S.proxy_list.map (fun p => (j, p)) }
          ).incomplete_jobs = S.incomplete_jobs
    · refine ih _ (List.nodup_cons.mp hnd).2 ?_ ?_ hempty
      · intro k hk
        rw [hch]
        exact hsub k (by simp [hk])
      · rw [hch]
        exact hne
    · -- a Success was observed in job j's round
      have hpool :
          (runAttempts j (orc.pok sIdx j)
            ((orc.ord sIdx j S.proxy_list).map (fun p => (p, orc.out sIdx j p)))
            { S with invoked := S.invoked ++ S.proxy_list.map (fun p => (j, p)) }
            ).proxy_list ≠ [] := by
        refine ra_success_pool j (orc.pok sIdx j) (orc.out sIdx j) _ _ ?_ hch
        intro q hq _
        show q ∈ S.proxy_list
        exact (Hord sIdx j S.proxy_list).mem_iff.mp hq
      have herase :
          (runAttempts j (orc.pok sIdx j)
            ((orc.ord sIdx j S.proxy_list).map (fun p => (p, orc.out sIdx j p)))
            { S with invoked := S.invoked ++ S.proxy_list.map (fun p => (j, p)) }
            ).incomplete_jobs = S.incomplete_jobs.erase j := by
        rcases ra_incomplete_cases j (orc.pok sIdx j)
            ((orc.ord sIdx j S.proxy_list).map (fun p => (p, orc.out sIdx j p)))
            { S with invoked := S.invoked ++ S.proxy_list.map (fun p => (j, p)) }
          with hcase | hcase
        · exact absurd hcase hch
        · exact hcase
      cases rest with
      | nil => exact hpool
      | cons r rs =>
        refine ih _ (List.nodup_cons.mp hnd).2 ?_ ?_ hempty
        · intro k hk
          rw [herase]
          have hkj : k ≠ j := by
            intro hc
            exact (List.nodup_cons.mp hnd).1 (hc ▸ hk)
          exact (List.mem_erase_of_ne hkj).mpr (hsub k (by simp [hk]))
        · rw [herase]
          have hrj : r ≠ j := by
            intro hc
            exact (List.nodup_cons.mp hnd).1 (by simp [hc])
          have : r ∈ S.incomplete_jobs.erase j :=
            (List.mem_erase_of_ne hrj).mpr (hsub r (by simp))
          exact List.ne_nil_of_mem this

/-- Sweeps over an empty snapshot change nothing, so once every job is
complete while proxies remain the loop never exits. -/
theorem runLoop_none_of_incomplete_nil (orc : Oracle) :
    ∀ (fuel sIdx : Nat) (S : EngineState),
      S.incomplete_jobs = [] → S.proxy_list ≠ [] →
      (runLoop orc fuel sIdx S).1 = none := by
  intro fuel
  induction fuel with
  | zero => intro sIdx S _ _; rfl
  | succ fuel ih =>
    intro sIdx S h1 h2
    simp only [runLoop, if_neg h2]
    rw [h1]
    exact ih _ S h1 h2

/-- A run of the loop that starts with at least one incomplete job and exits
does so with result `false` (the early-exit on full success does not exist:
the while-condition only tests the pool) and with some job still incomplete. -/
theorem runLoop_result_false (artifacts : List Bool) (orc : Oracle)
    (Hord : ∀ (s i : Nat) (l : List ProxyRecord), (orc.ord s i l).Perm l) :
    ∀ (fuel sIdx : Nat) (S : EngineState) (b : Bool),
      GoodState artifacts S → S.incomplete_jobs ≠ [] →
      (runLoop orc fuel sIdx S).1 = some b →
      b = false ∧ (runLoop orc fuel sIdx S).2.incomplete_jobs ≠ [] := by
  intro fuel
  induction fuel with
  | zero =>
    intro sIdx S b _ _ h
    exact Option.noConfusion h
  | succ fuel ih =>
    intro sIdx S b hGS hne h
    by_cases hp : S.proxy_list = []
    · simp only [runLoop, if_pos hp] at h ⊢
      obtain ⟨j, hj⟩ := List.exists_mem_of_ne_nil _ hne
      have h4 := hGS.2.2.2.1 j hj
      have hfalse : S.completed.all (fun b => b) = false :=
        all_id_eq_false_of_getD S.completed j h4.2
      injection h with hb
      exact ⟨by rw [← hb, hfalse], hne⟩
    · simp only [runLoop, if_neg hp] at h ⊢
      by_cases hinc :
          (sweepJobs orc sIdx S.incomplete_jobs S).incomplete_jobs = []
      · have hpool : (sweepJobs orc sIdx S.incomplete_jobs S).proxy_list ≠ [] :=
          sweep_complete_pool_ne_nil orc sIdx Hord _ S hGS.1 (fun k hk => hk)
            hne hinc
        rw [runLoop_none_of_incomplete_nil orc fuel _ _ hinc hpool] at h
        exact Option.noConfusion h
      · exact ih _ _ b
          (GoodState_sweepJobs artifacts orc sIdx _ S hGS hGS.1 (fun k hk => hk))
          hinc h

/-! ## Absence propagation (no resurrection of evicted proxies) -/

/-- A proxy gone from both pool and backing store stays gone through a sweep,
and every attempt submitted during the sweep uses some other proxy. -/
theorem sweep_absent (orc : Oracle) (sIdx : Nat) (p : ProxyRecord) :
    ∀ (jl : List Nat) (S : EngineState),
      p ∉ S.proxy_list → p ∉ S.persisted →
      p ∉ (sweepJobs orc sIdx jl S).proxy_list ∧
      p ∉ (sweepJobs orc sIdx jl S).persisted ∧
      (∀ e ∈ (sweepJobs orc sIdx jl S).invoked, e ∈ S.invoked ∨ e.2 ≠ p) := by
  intro jl
  induction jl with
  | nil =>
    intro S h1 h2
    exact ⟨h1, h2, fun e he => Or.inl he⟩
  | cons j rest ih =>
    intro S h1 h2
    simp only [sweepJobs]
    have hS0 := ra_absent j (orc.pok sIdx j) p
      ((orc.ord sIdx j S.proxy_list).map (fun pr => (pr, orc.out sIdx j pr)))
      { S with invoked := S.invoked ++ S.proxy_list.map (fun pr => (j, pr)) }
      h1 h2
    obtain ⟨hA, hB, hC⟩ := ih _ hS0.1 hS0.2
    refine ⟨hA, hB, ?_⟩
    intro e he
    rcases hC e he with hC1 | hC2
    · rw [ra_invoked] at hC1
      rcases List.mem_append.mp hC1 with hc | hc
      · exact Or.inl hc
      · obtain ⟨q, hq, hqe⟩ := List.mem_map.mp hc
        right
        rw [← hqe]
        intro hcontra
        change q = p at hcontra
        exact h1 (hcontra ▸ hq)
    · exact Or.inr hC2

/-- A proxy gone from both pool and backing store stays gone for the rest of
the loop, and no later round submits an attempt through it. -/
theorem runLoop_absent (orc : Oracle) (p : ProxyRecord) :
    ∀ (fuel sIdx : Nat) (S : EngineState),
      p ∉ S.proxy_list → p ∉ S.persisted →
      p ∉ (runLoop orc fuel sIdx S).2.proxy_list ∧
      p ∉ (runLoop orc fuel sIdx S).2.persisted ∧
      (∀ e ∈ (runLoop orc fuel sIdx S).2.invoked, e ∈ S.invoked ∨ e.2 ≠ p) := by
  intro fuel
  induction fuel with
  | zero =>
    intro sIdx S h1 h2
    exact ⟨h1, h2, fun e he => Or.inl he⟩
  | succ fuel ih =>
    intro sIdx S h1 h2
    by_cases hp : S.proxy_list = []
    · simp only [runLoop, if_pos hp]
      exact ⟨h1, h2, fun e he => Or.inl he⟩
    · simp only [runLoop, if_neg hp]
      obtain ⟨hA, hB, hC⟩ := sweep_absent orc sIdx p S.incomplete_jobs S h1 h2
      obtain ⟨hA', hB', hC'⟩ := ih (sIdx + 1) _ hA hB
      refine ⟨hA', hB', ?_⟩
      intro e he
      rcases hC' e he with hc | hc
      · exact hC e hc
      · exact Or.inr hc

/-! ## The persistence oracle does not influence the engine's decisions -/

/-- The components of the state that the engine branches on (everything except
the backing store and the failure-report log). -/
def coreView (S : EngineState) :
    List ProxyRecord × List (String × Nat) × List Bool × List Nat ×
      List (Nat × ProxyRecord) × List Nat :=
  (S.proxy_list, S.proxy_failures, S.completed, S.incomplete_jobs, S.invoked,
    S.marks)

theorem coreView_eq_of (S1 S2 : EngineState)
    (h1 : S1.proxy_list = S2.proxy_list)
    (h2 : S1.proxy_failures = S2.proxy_failures)
    (h3 : S1.completed = S2.completed)
    (h4 : S1.incomplete_jobs = S2.incomplete_jobs)
    (h5 : S1.invoked = S2.invoked)
    (h6 : S1.marks = S2.marks) : coreView S1 = coreView S2 := by
  unfold coreView
  rw [h1, h2, h3, h4, h5, h6]

theorem coreView_proj (S1 S2 : EngineState) (h : coreView S1 = coreView S2) :
    S1.proxy_list = S2.proxy_list ∧ S1.proxy_failures = S2.proxy_failures ∧
    S1.completed = S2.completed ∧ S1.incomplete_jobs = S2.incomplete_jobs ∧
    S1.invoked = S2.invoked ∧ S1.marks = S2.marks := by
  unfold coreView at h
  exact ⟨congrArg (fun t => t.1) h, congrArg (fun t => t.2.1) h,
    congrArg (fun t => t.2.2.1) h, congrArg (fun t => t.2.2.2.1) h,
    congrArg (fun t => t.2.2.2.2.1) h, congrArg (fun t => t.2.2.2.2.2) h⟩

/-- A round's effect on the core state does not depend on which persistence
writes succeed. -/
theorem ra_pok_congr (j : Nat) (pok1 pok2 : ProxyRecord → Bool) :
    ∀ (l : List (ProxyRecord × JobStatus)) (S1 S2 : EngineState),
      coreView S1 = coreView S2 →
      coreView (runAttempts j pok1 l S1) = coreView (runAttempts j pok2 l S2) := by
  intro l
  induction l with
  | nil => intro S1 S2 h; exact h
  | cons hd rest ih =>
    intro S1 S2 h
    obtain ⟨hpool, hfail, hcomp, hinc, hinv, hmarks⟩ := coreView_proj S1 S2 h
    obtain ⟨proxy, status⟩ := hd
    cases status with
    | Success =>
      simp only [runAttempts]
      refine coreView_eq_of _ _ ?_ ?_ ?_ ?_ ?_ ?_
      · exact hpool
      · exact hfail
      · show S1.completed.set j true = S2.completed.set j true
        rw [hcomp]
      · show (if j ∈ S1.incomplete_jobs then S1.incomplete_jobs.erase j
            else S1.incomplete_jobs) =
          (if j ∈ S2.incomplete_jobs then S2.incomplete_jobs.erase j
            else S2.incomplete_jobs)
        rw [hinc]
      · exact hinv
      · show S1.marks ++ [j] = S2.marks ++ [j]
        rw [hmarks]
    | PageConnectionError =>
      simp only [runAttempts]
      by_cases hmem : proxy ∈ S1.proxy_list
      · have hmem2 : proxy ∈ S2.proxy_list := by rw [← hpool]; exact hmem
        rw [if_pos hmem, if_pos hmem2]
        refine ih _ _ (coreView_eq_of _ _ ?_ ?_ ?_ ?_ ?_ ?_)
        · show S1.proxy_list.erase proxy = S2.proxy_list.erase proxy
          rw [hpool]
        · exact hfail
        · exact hcomp
        · exact hinc
        · exact hinv
        · exact hmarks
      · have hmem2 : proxy ∉ S2.proxy_list := by rw [← hpool]; exact hmem
        rw [if_neg hmem, if_neg hmem2]
        exact ih _ _ (coreView_eq_of _ _ hpool hfail hcomp hinc hinv hmarks)
    | GenericError =>
      simp only [runAttempts]
      by_cases hc : MAX_RETRIES ≤ getTally S1.proxy_failures (proxy_str proxy) + 1
      · have hc2 : MAX_RETRIES ≤ getTally S2.proxy_failures (proxy_str proxy) + 1 := by
          rw [← hfail]
          exact hc
        rw [if_pos hc, if_pos hc2]
        refine ih _ _ (coreView_eq_of _ _ ?_ ?_ ?_ ?_ ?_ ?_)
        · show (if proxy ∈ S1.proxy_list then S1.proxy_list.erase proxy
              else S1.proxy_list) =
            (if proxy ∈ S2.proxy_list then S2.proxy_list.erase proxy
              else S2.proxy_list)
          rw [hpool]
        · show delTally (setTally S1.proxy_failures (proxy_str proxy)
              (getTally S1.proxy_failures (proxy_str proxy) + 1)) (proxy_str proxy) =
            delTally (setTally S2.proxy_failures (proxy_str proxy)
              (getTally S2.proxy_failures (proxy_str proxy) + 1)) (proxy_str proxy)
          rw [hfail]
        · exact hcomp
        · exact hinc
        · exact hinv
        · exact hmarks
      · have hc2 : ¬ MAX_RETRIES ≤ getTally S2.proxy_failures (proxy_str proxy) + 1 := by
          rw [← hfail]
          exact hc
        rw [if_neg hc, if_neg hc2]
        refine ih _ _ (coreView_eq_of _ _ hpool ?_ hcomp hinc hinv hmarks)
        show setTally S1.proxy_failures (proxy_str proxy)
            (getTally S1.proxy_failures (proxy_str proxy) + 1) =
          setTally S2.proxy_failures (proxy_str proxy)
            (getTally S2.proxy_failures (proxy_str proxy) + 1)
        rw [hfail]

/-- A sweep's effect on the core state does not depend on which persistence
writes succeed. -/
theorem sweep_pok_congr (orc1 orc2 : Oracle) (sIdx : Nat)
    (hout : orc1.out = orc2.out) (hord : orc1.ord = orc2.ord) :
    ∀ (jl : List Nat) (S1 S2 : EngineState),
      coreView S1 = coreView S2 →
      coreView (sweepJobs orc1 sIdx jl S1) =
        coreView (sweepJobs orc2 sIdx jl S2) := by
  intro jl
  induction jl with
  | nil => intro S1 S2 h; exact h
  | cons j rest ih =>
    intro S1 S2 h
    obtain ⟨hpool, hfail, hcomp, hinc, hinv, hmarks⟩ := coreView_proj S1 S2 h
    simp only [sweepJobs]
    rw [← hord, ← hout, ← hpool]
    refine ih _ _ ?_
    refine ra_pok_congr j (orc1.pok sIdx j) (orc2.pok sIdx j) _ _ _
      (coreView_eq_of _ _ rfl hfail hcomp hinc ?_ hmarks)
    show S1.invoked ++ S1.proxy_list.map (fun p => (j, p)) =
      S2.invoked ++ S1.proxy_list.map (fun p => (j, p))
    rw [hinv]

/-- Neither the loop's result nor its effect on the core state depends on
which persistence writes succeed. -/
theorem runLoop_pok_congr (orc1 orc2 : Oracle)
    (hout : orc1.out = orc2.out) (hord : orc1.ord = orc2.ord) :
    ∀ (fuel sIdx : Nat) (S1 S2 : EngineState),
      coreView S1 = coreView S2 →
      (runLoop orc1 fuel sIdx S1).1 = (runLoop orc2 fuel sIdx S2).1 ∧
      coreView (runLoop orc1 fuel sIdx S1).2 =
        coreView (runLoop orc2 fuel sIdx S2).2 := by
  intro fuel
  induction fuel with
  | zero => intro sIdx S1 S2 h; exact ⟨rfl, h⟩
  | succ fuel ih =>
    intro sIdx S1 S2 h
    obtain ⟨hpool, hfail, hcomp, hinc, hinv, hmarks⟩ := coreView_proj S1 S2 h
    by_cases hp : S1.proxy_list = []
    · have hp2 : S2.proxy_list = [] := by rw [← hpool]; exact hp
      simp only [runLoop, if_pos hp, if_pos hp2]
      exact ⟨by rw [hcomp], h⟩
    · have hp2 : S2.proxy_list ≠ [] := by rw [← hpool]; exact hp
      simp only [runLoop, if_neg hp, if_neg hp2]
      rw [← hinc]
      exact ih _ _ _ (sweep_pok_congr orc1 orc2 sIdx hout hord _ _ _ h)

/-! ## Claim theorems -/

theorem flagAt_eq_false_of_getD (l : List Bool) (j : Nat)
    (h : l.getD j true = false) : flagAt l j = false := by
  have hlt := lt_length_of_getD_true_eq_false l j h
  unfold flagAt
  rw [List.getD_eq_getElem l false hlt]
  rw [List.getD_eq_getElem l true hlt] at h
  exact h

/-- C1: for every run of the scheduler that returns, the boolean it returns
is true iff every loaded job ended completed, where a job whose output
artifact already existed at Init (and which is therefore never dispatched)
counts as completed.  The early return at lines 188-190 yields true exactly
when every artifact pre-exists; the final return at line 233 is reachable
only with the pool exhausted and some job genuinely incomplete, and then
yields false. -/
theorem C1_return_iff_every_job_completed (orc : Oracle) (fuel : Nat)
    (artifacts : List Bool) (pool0 pers0 : List ProxyRecord)
    (b : Bool) (T : EngineState)
    (Hord : ∀ (s i : Nat) (l : List ProxyRecord), (orc.ord s i l).Perm l)
    (h : WebScrapingJobLauncher orc fuel artifacts pool0 pers0 = (some b, T)) :
    (b = true) ↔
      (∀ j < artifacts.length,
        (artifacts.getD j true || flagAt T.completed j) = true) := by
  unfold WebScrapingJobLauncher at h
  by_cases hinc : (initState artifacts pool0 pers0).incomplete_jobs = []
  · rw [if_pos hinc] at h
    have hb : some true = some b := congrArg Prod.fst h
    injection hb with hb
    have hincf : (List.range artifacts.length).filter
        (fun j => ! artifacts.getD j true) = [] := hinc
    rw [List.filter_eq_nil_iff] at hincf
    constructor
    · intro _ j hj
      have hart : artifacts.getD j true = true := by
        have := hincf j (List.mem_range.mpr hj)
        simpa using this
      rw [hart]
      simp
    · intro _
      exact hb.symm
  · rw [if_neg hinc] at h
    have hGS := GoodState_initState artifacts pool0 pers0
    have h1 : (runLoop orc fuel 0 (initState artifacts pool0 pers0)).1 = some b :=
      congrArg Prod.fst h
    obtain ⟨hb, hT⟩ := runLoop_result_false artifacts orc Hord fuel 0 _ b hGS hinc h1
    have hT2 : (runLoop orc fuel 0 (initState artifacts pool0 pers0)).2 = T :=
      congrArg Prod.snd h
    have hGT : GoodState artifacts T := by
      rw [← hT2]
      exact GoodState_runLoop artifacts orc fuel 0 _ hGS
    rw [hT2] at hT
    subst hb
    obtain ⟨j, hj⟩ := List.exists_mem_of_ne_nil _ hT
    have h4 := hGT.2.2.2.1 j hj
    constructor
    · intro hff
      exact Bool.noConfusion hff
    · intro hall
      exfalso
      have hjlt : j < artifacts.length := by
        have hl := lt_length_of_getD_true_eq_false _ _ h4.2
        rw [hGT.2.2.1] at hl
        exact hl
      have hcall := hall j hjlt
      rw [h4.1, flagAt_eq_false_of_getD _ _ h4.2] at hcall
      simp at hcall

theorem C1_witness :
    (∀ (s i : Nat) (l : List ProxyRecord),
        ((fun (_ : Nat) (_ : Nat) (l : List ProxyRecord) => l) s i l).Perm l) ∧
    ((false = true) ↔
      (∀ j < ([false] : List Bool).length,
        (([false] : List Bool).getD j true ||
          flagAt (WebScrapingJobLauncher
            { out := fun _ _ _ => JobStatus.GenericError
              ord := fun _ _ l => l
              pok := fun _ _ _ => true } 4 [false] [⟨"a", 1⟩] []).2.completed j) =
          true)) :=
  ⟨fun _ _ l => List.Perm.refl l,
    C1_return_iff_every_job_completed
      { out := fun _ _ _ => JobStatus.GenericError
        ord := fun _ _ l => l
        pok := fun _ _ _ => true } 4 [false] [⟨"a", 1⟩] [] false
      (WebScrapingJobLauncher
        { out := fun _ _ _ => JobStatus.GenericError
          ord := fun _ _ l => l
          pok := fun _ _ _ => true } 4 [false] [⟨"a", 1⟩] []).2
      (fun _ _ l => List.Perm.refl l) (by decide)⟩

/-- C2 counterexample: the claim says a Success outcome resets the succeeding
proxy's FailureTally entry to zero.  In the code (src/main.py lines 209-214)
the Success branch never touches `proxy_failures`: starting from a tally of 2
for proxy a:1, observing Success for that proxy leaves the tally at 2, not
0. -/
theorem C2_counterexample_no_tally_reset :
    getTally (runAttempts 0 (fun _ => true)
        [(⟨"a", 1⟩, JobStatus.Success)]
        { proxy_list := [⟨"s", 9⟩, ⟨"a", 1⟩], proxy_failures := [("a:1", 2)],
          completed := [false], incomplete_jobs := [0],
          persisted := [⟨"s", 9⟩, ⟨"a", 1⟩], invoked := [], marks := [],
          persistFails := 0 }).proxy_failures (proxy_str ⟨"a", 1⟩) = 2 ∧
    ¬ (getTally (runAttempts 0 (fun _ => true)
        [(⟨"a", 1⟩, JobStatus.Success)]
        { proxy_list := [⟨"s", 9⟩, ⟨"a", 1⟩], proxy_failures := [("a:1", 2)],
          completed := [false], incomplete_jobs := [0],
          persisted := [⟨"s", 9⟩, ⟨"a", 1⟩], invoked := [], marks := [],
          persistFails := 0 }).proxy_failures (proxy_str ⟨"a", 1⟩) = 0) := by
  decide

/-- C2 as amended: on an observed Success outcome the scheduler mutates
neither the pool nor the backing store nor the failure tally — in particular
the tally entry of the succeeding proxy is left unchanged, not reset. -/
theorem C2_success_no_pool_no_tally_mutation (jb : Nat)
    (pok : ProxyRecord → Bool) (p : ProxyRecord)
    (rest : List (ProxyRecord × JobStatus)) (S : EngineState) :
    (runAttempts jb pok ((p, JobStatus.Success) :: rest) S).proxy_list =
      S.proxy_list ∧
    (runAttempts jb pok ((p, JobStatus.Success) :: rest) S).persisted =
      S.persisted ∧
    (runAttempts jb pok ((p, JobStatus.Success) :: rest) S).proxy_failures =
      S.proxy_failures :=
  ⟨rfl, rfl, rfl⟩

/-- C3 counterexample: the claim says outcomes of the remaining concurrent
attempts of a round are still applied to the pool/tally after the round's
first Success.  In the code the Success branch `break`s out of the
`as_completed` loop (src/main.py line 214), so a ConnectionError arriving
after the winning Success is never retrieved: proxy a:1 stays in the pool and
the backing store is never rewritten. -/
theorem C3_counterexample_stragglers_not_applied :
    (⟨"a", 1⟩ : ProxyRecord) ∈ (runAttempts 0 (fun _ => true)
        [(⟨"s", 9⟩, JobStatus.Success), (⟨"a", 1⟩, JobStatus.PageConnectionError)]
        { proxy_list := [⟨"s", 9⟩, ⟨"a", 1⟩], proxy_failures := [],
          completed := [false], incomplete_jobs := [0],
          persisted := [⟨"s", 9⟩, ⟨"a", 1⟩], invoked := [], marks := [],
          persistFails := 0 }).proxy_list ∧
    (runAttempts 0 (fun _ => true)
        [(⟨"s", 9⟩, JobStatus.Success), (⟨"a", 1⟩, JobStatus.PageConnectionError)]
        { proxy_list := [⟨"s", 9⟩, ⟨"a", 1⟩], proxy_failures := [],
          completed := [false], incomplete_jobs := [0],
          persisted := [⟨"s", 9⟩, ⟨"a", 1⟩], invoked := [], marks := [],
          persistFails := 0 }).persisted = [⟨"s", 9⟩, ⟨"a", 1⟩] := by
  decide

/-- C3 as amended: after the first Success of a round latches the job as
completed, the outcomes of the remaining attempts of that round are discarded
— the state after the round does not depend on them at all — and the job's
completion state is the latched one. -/
theorem C3_outcomes_after_success_discarded (jb : Nat)
    (pok : ProxyRecord → Bool) (p : ProxyRecord)
    (rest : List (ProxyRecord × JobStatus)) (S : EngineState) :
    runAttempts jb pok ((p, JobStatus.Success) :: rest) S =
      runAttempts jb pok [(p, JobStatus.Success)] S ∧
    (runAttempts jb pok ((p, JobStatus.Success) :: rest) S).completed =
      S.completed.set jb true :=
  ⟨rfl, rfl⟩

@[simp]
theorem WriteJson_persisted (ok : Bool) (S : EngineState) :
    (WriteJson ok S).persisted = if ok then S.proxy_list else S.persisted := rfl

/-- Helper for C4: if the outcomes processed before `(p, ConnectionError)`
contain no Success (so the break does not fire first) and `p`'s write
succeeds, the round leaves `p` outside both the pool and the backing store. -/
theorem ra_pce_evicts (jb : Nat) (pok : ProxyRecord → Bool) (p : ProxyRecord)
    (hok : pok p = true) :
    ∀ (pre : List (ProxyRecord × JobStatus))
      (rest : List (ProxyRecord × JobStatus)) (S : EngineState),
      S.proxy_list.Nodup →
      (p ∈ S.proxy_list ∨ (p ∉ S.proxy_list ∧ p ∉ S.persisted)) →
      (∀ q st, (q, st) ∈ pre → st ≠ JobStatus.Success) →
      p ∉ (runAttempts jb pok
        (pre ++ (p, JobStatus.PageConnectionError) :: rest) S).proxy_list ∧
      p ∉ (runAttempts jb pok
        (pre ++ (p, JobStatus.PageConnectionError) :: rest) S).persisted := by
  intro pre
  induction pre with
  | nil =>
    intro rest S hnd hD _
    simp only [List.nil_append, runAttempts]
    rcases hD with hin | ⟨hout1, hout2⟩
    · rw [if_pos hin]
      have hpe : p ∉ S.proxy_list.erase p :=
        fun hc => ((hnd.mem_erase_iff).mp hc).1 rfl
      refine ra_absent jb pok p rest _ hpe ?_
      show p ∉ (if pok p then S.proxy_list.erase p else S.persisted)
      rw [hok]
      simpa using hpe
    · rw [if_neg hout1]
      exact ra_absent jb pok p rest S hout1 hout2
  | cons hd pre ih =>
    intro rest S hnd hD hpre
    obtain ⟨q, st⟩ := hd
    have hqs : st ≠ JobStatus.Success := hpre q st (by simp)
    have hpre' : ∀ q2 st2, (q2, st2) ∈ pre → st2 ≠ JobStatus.Success :=
      fun q2 st2 hmem => hpre q2 st2 (by simp [hmem])
    cases st with
    | Success => exact absurd rfl hqs
    | PageConnectionError =>
      rw [List.cons_append]
      simp only [runAttempts]
      by_cases hmem : q ∈ S.proxy_list
      · rw [if_pos hmem]
        refine ih rest _ (hnd.erase q) ?_ hpre'
        by_cases hpq : p = q
        · subst hpq
          right
          have hpe : p ∉ S.proxy_list.erase p :=
            fun hc => ((hnd.mem_erase_iff).mp hc).1 rfl
          refine ⟨hpe, ?_⟩
          show p ∉ (if pok p then S.proxy_list.erase p else S.persisted)
          rw [hok]
          simpa using hpe
        · rcases hD with hin | ⟨h1, h2⟩
          · left
            show p ∈ S.proxy_list.erase q
            exact (List.mem_erase_of_ne hpq).mpr hin
          · right
            refine ⟨fun hc => h1 (List.mem_of_mem_erase hc), ?_⟩
            show p ∉ (if pok q then S.proxy_list.erase q else S.persisted)
            by_cases hokq : pok q = true
            · rw [if_pos hokq]
              exact fun hc => h1 (List.mem_of_mem_erase hc)
            · rw [if_neg hokq]
              exact h2
      · rw [if_neg hmem]
        exact ih rest S hnd hD hpre'
    | GenericError =>
      rw [List.cons_append]
      simp only [runAttempts]
      by_cases hcq : MAX_RETRIES ≤ getTally S.proxy_failures (proxy_str q) + 1
      · rw [if_pos hcq]
        by_cases hmem : q ∈ S.proxy_list
        · rw [if_pos hmem]
          refine ih rest _ (hnd.erase q) ?_ hpre'
          by_cases hpq : p = q
          · subst hpq
            right
            have hpe : p ∉ S.proxy_list.erase p :=
              fun hc => ((hnd.mem_erase_iff).mp hc).1 rfl
            refine ⟨hpe, ?_⟩
            show p ∉ (if pok p then S.proxy_list.erase p else S.persisted)
            rw [hok]
            simpa using hpe
          · rcases hD with hin | ⟨h1, h2⟩
            · left
              show p ∈ S.proxy_list.erase q
              exact (List.mem_erase_of_ne hpq).mpr hin
            · right
              refine ⟨fun hc => h1 (List.mem_of_mem_erase hc), ?_⟩
              show p ∉ (if pok q then S.proxy_list.erase q else S.persisted)
              by_cases hokq : pok q = true
              · rw [if_pos hokq]
                exact fun hc => h1 (List.mem_of_mem_erase hc)
              · rw [if_neg hokq]
                exact h2
        · rw [if_neg hmem]
          refine ih rest _ hnd ?_ hpre'
          rcases hD with hin | ⟨h1, h2⟩
          · left
            exact hin
          · right
            refine ⟨h1, ?_⟩
            show p ∉ (if pok q then S.proxy_list else S.persisted)
            by_cases hokq : pok q = true
            · rw [if_pos hokq]
              exact h1
            · rw [if_neg hokq]
              exact h2
      · rw [if_neg hcq]
        exact ih rest _ hnd hD hpre'

/-- C4 counterexample: the claim quantifies over every proxy whose attempt
returns ConnectionError.  With pool [s:9, c:2], where s:9 always succeeds
first in completion order and c:2 always returns ConnectionError, c:2's
outcome is never retrieved (the Success breaks the loop first): c:2 is never
evicted and is submitted again in the round for job 1 of the same sweep. -/
theorem C4_counterexample_unobserved_connection_error :
    ((1, (⟨"c", 2⟩ : ProxyRecord)) ∈ (WebScrapingJobLauncher
        { out := fun _ _ pr =>
            if pr = ⟨"s", 9⟩ then JobStatus.Success
            else JobStatus.PageConnectionError
          ord := fun _ _ l => l
          pok := fun _ _ _ => true }
        2 [false, false] [⟨"s", 9⟩, ⟨"c", 2⟩] [⟨"s", 9⟩, ⟨"c", 2⟩]).2.invoked) ∧
    (⟨"c", 2⟩ : ProxyRecord) ∈ (WebScrapingJobLauncher
        { out := fun _ _ pr =>
            if pr = ⟨"s", 9⟩ then JobStatus.Success
            else JobStatus.PageConnectionError
          ord := fun _ _ l => l
          pok := fun _ _ _ => true }
        2 [false, false] [⟨"s", 9⟩, ⟨"c", 2⟩] [⟨"s", 9⟩, ⟨"c", 2⟩]).2.proxy_list := by
  decide

/-- C4 as amended: every proxy whose ConnectionError outcome is observed by
the scheduler (processed before any winning Success of its round, here: the
preceding outcomes of the round contain no Success) is removed from the pool
and — its write succeeding — from the backing store by the end of the round;
and from any state where it is gone from both, it stays gone for the rest of
the loop and no later round submits an attempt through it. -/
theorem C4_observed_connection_error_evicts_forever
    (orc : Oracle) (jb : Nat) (pok : ProxyRecord → Bool) (p : ProxyRecord)
    (pre rest : List (ProxyRecord × JobStatus)) (S : EngineState)
    (fuel sIdx : Nat) (S2 : EngineState)
    (hnd : S.proxy_list.Nodup) (hp : p ∈ S.proxy_list) (hok : pok p = true)
    (hpre : ∀ q st, (q, st) ∈ pre → st ≠ JobStatus.Success)
    (h2p : p ∉ S2.proxy_list) (h2f : p ∉ S2.persisted) :
    (p ∉ (runAttempts jb pok
        (pre ++ (p, JobStatus.PageConnectionError) :: rest) S).proxy_list ∧
     p ∉ (runAttempts jb pok
        (pre ++ (p, JobStatus.PageConnectionError) :: rest) S).persisted) ∧
    (p ∉ (runLoop orc fuel sIdx S2).2.proxy_list ∧
     p ∉ (runLoop orc fuel sIdx S2).2.persisted ∧
     (∀ e ∈ (runLoop orc fuel sIdx S2).2.invoked, e ∈ S2.invoked ∨ e.2 ≠ p)) :=
  ⟨ra_pce_evicts jb pok p hok pre rest S hnd (Or.inl hp) hpre,
    runLoop_absent orc p fuel sIdx S2 h2p h2f⟩

/-- Concrete data for the C4 witness. -/
def p4wit : ProxyRecord := ⟨"a", 1⟩

/-- Concrete state for the C4 witness: pool holding just `p4wit`. -/
def S4wit : EngineState :=
  { proxy_list := [⟨"a", 1⟩], proxy_failures := [], completed := [false],
    incomplete_jobs := [0], persisted := [⟨"a", 1⟩], invoked := [], marks := [],
    persistFails := 0 }

/-- Concrete state for the C4 witness: `p4wit` already gone from pool and
store. -/
def S4wit2 : EngineState :=
  { proxy_list := [], proxy_failures := [], completed := [false],
    incomplete_jobs := [0], persisted := [], invoked := [], marks := [],
    persistFails := 0 }

/-- Concrete oracle for the C4 witness. -/
def orc4wit : Oracle :=
  { out := fun _ _ _ => JobStatus.GenericError, ord := fun _ _ l => l,
    pok := fun _ _ _ => true }

theorem C4_witness :
    (S4wit.proxy_list.Nodup ∧ p4wit ∈ S4wit.proxy_list ∧
     (fun (_ : ProxyRecord) => true) p4wit = true ∧
     p4wit ∉ S4wit2.proxy_list ∧ p4wit ∉ S4wit2.persisted) ∧
    (p4wit ∉ (runAttempts 0 (fun _ => true)
        ([] ++ (p4wit, JobStatus.PageConnectionError) :: []) S4wit).proxy_list ∧
     p4wit ∉ (runAttempts 0 (fun _ => true)
        ([] ++ (p4wit, JobStatus.PageConnectionError) :: []) S4wit).persisted) ∧
    (p4wit ∉ (runLoop orc4wit 1 0 S4wit2).2.proxy_list ∧
     p4wit ∉ (runLoop orc4wit 1 0 S4wit2).2.persisted ∧
     (∀ e ∈ (runLoop orc4wit 1 0 S4wit2).2.invoked,
        e ∈ S4wit2.invoked ∨ e.2 ≠ p4wit)) :=
  ⟨⟨by decide, by decide, rfl, by decide, by decide⟩,
    C4_observed_connection_error_evicts_forever orc4wit 0 (fun _ => true) p4wit
      [] [] S4wit 1 0 S4wit2 (by decide) (by decide) rfl
      (fun q st h => nomatch h) (by decide) (by decide)⟩

/-- Concrete state for the C5 counterexample: proxy a:1 already carries a
tally of 2. -/
def S5ctr : EngineState :=
  { proxy_list := [⟨"s", 9⟩, ⟨"a", 1⟩], proxy_failures := [("a:1", 2)],
    completed := [false], incomplete_jobs := [0],
    persisted := [⟨"s", 9⟩, ⟨"a", 1⟩], invoked := [], marks := [],
    persistFails := 0 }

/-- C5 counterexample: the claim says each GenericError outcome increments
the proxy's tally, with eviction exactly at the third.  Proxy a:1 already has
tally 2; its third GenericError outcome arrives after the round's winning
Success and is discarded by the `break` (src/main.py line 214): the tally
stays at 2 and a:1 is not evicted. -/
theorem C5_counterexample_discarded_generic_error :
    getTally (runAttempts 0 (fun _ => true)
        [(⟨"s", 9⟩, JobStatus.Success), (⟨"a", 1⟩, JobStatus.GenericError)]
        S5ctr).proxy_failures (proxy_str ⟨"a", 1⟩) = 2 ∧
    (⟨"a", 1⟩ : ProxyRecord) ∈ (runAttempts 0 (fun _ => true)
        [(⟨"s", 9⟩, JobStatus.Success), (⟨"a", 1⟩, JobStatus.GenericError)]
        S5ctr).proxy_list := by
  decide

/-- C5 as amended: for every GenericError outcome observed by the scheduler
(not discarded after a round's winning Success), the proxy's tally entry is
incremented by one; while the incremented tally is strictly below the ceiling
the pool is untouched (the proxy stays eligible), and when it reaches the
ceiling the proxy is evicted, the tally entry removed, and — the write
succeeding — the backing store holds exactly the shrunken pool. -/
theorem C5_observed_generic_error_tally_policy (jb : Nat)
    (pok : ProxyRecord → Bool) (p : ProxyRecord) (S : EngineState)
    (hnd : S.proxy_list.Nodup)
    (hknd : (S.proxy_failures.map Prod.fst).Nodup)
    (hok : pok p = true) :
    (getTally S.proxy_failures (proxy_str p) + 1 < MAX_RETRIES →
        (runAttempts jb pok [(p, JobStatus.GenericError)] S).proxy_list =
          S.proxy_list ∧
        getTally (runAttempts jb pok
            [(p, JobStatus.GenericError)] S).proxy_failures (proxy_str p) =
          getTally S.proxy_failures (proxy_str p) + 1) ∧
    (MAX_RETRIES ≤ getTally S.proxy_failures (proxy_str p) + 1 →
        p ∉ (runAttempts jb pok [(p, JobStatus.GenericError)] S).proxy_list ∧
        hasTally (runAttempts jb pok
            [(p, JobStatus.GenericError)] S).proxy_failures (proxy_str p) =
          false ∧
        (runAttempts jb pok [(p, JobStatus.GenericError)] S).persisted =
          (runAttempts jb pok [(p, JobStatus.GenericError)] S).proxy_list) := by
  constructor
  · intro hlt
    have hcond : ¬ MAX_RETRIES ≤ getTally S.proxy_failures (proxy_str p) + 1 := by
      omega
    simp only [runAttempts, if_neg hcond]
    constructor
    · trivial
    · exact getTally_setTally_self _ _ _
  · intro hge
    simp only [runAttempts, if_pos hge]
    refine ⟨?_, ?_, ?_⟩
    · by_cases hmem : p ∈ S.proxy_list
      · show p ∉ (if p ∈ S.proxy_list then S.proxy_list.erase p
            else S.proxy_list)
        rw [if_pos hmem]
        exact fun hc => ((hnd.mem_erase_iff).mp hc).1 rfl
      · show p ∉ (if p ∈ S.proxy_list then S.proxy_list.erase p
            else S.proxy_list)
        rw [if_neg hmem]
        exact hmem
    · show hasTally (delTally (setTally S.proxy_failures (proxy_str p)
          (getTally S.proxy_failures (proxy_str p) + 1)) (proxy_str p))
          (proxy_str p) = false
      exact hasTally_delTally_setTally _ _ _ hknd
    · show (if pok p then
            (if p ∈ S.proxy_list then S.proxy_list.erase p else S.proxy_list)
          else S.persisted) =
        (if p ∈ S.proxy_list then S.proxy_list.erase p else S.proxy_list)
      rw [hok, if_pos rfl]

/-- Concrete state for the C5 witness: pool [a:1], tally of a:1 already 2. -/
def S5wit : EngineState :=
  { proxy_list := [⟨"a", 1⟩], proxy_failures := [("a:1", 2)],
    completed := [false], incomplete_jobs := [0], persisted := [⟨"a", 1⟩],
    invoked := [], marks := [], persistFails := 0 }

theorem C5_witness :
    (S5wit.proxy_list.Nodup ∧ (S5wit.proxy_failures.map Prod.fst).Nodup ∧
     (fun (_ : ProxyRecord) => true) p4wit = true) ∧
    ((getTally S5wit.proxy_failures (proxy_str ⟨"a", 1⟩) + 1 < MAX_RETRIES →
        (runAttempts 0 (fun _ => true)
            [((⟨"a", 1⟩ : ProxyRecord), JobStatus.GenericError)] S5wit).proxy_list =
          S5wit.proxy_list ∧
        getTally (runAttempts 0 (fun _ => true)
            [((⟨"a", 1⟩ : ProxyRecord), JobStatus.GenericError)] S5wit).proxy_failures
            (proxy_str ⟨"a", 1⟩) =
          getTally S5wit.proxy_failures (proxy_str ⟨"a", 1⟩) + 1) ∧
     (MAX_RETRIES ≤ getTally S5wit.proxy_failures (proxy_str ⟨"a", 1⟩) + 1 →
        (⟨"a", 1⟩ : ProxyRecord) ∉ (runAttempts 0 (fun _ => true)
            [((⟨"a", 1⟩ : ProxyRecord), JobStatus.GenericError)] S5wit).proxy_list ∧
        hasTally (runAttempts 0 (fun _ => true)
            [((⟨"a", 1⟩ : ProxyRecord), JobStatus.GenericError)] S5wit).proxy_failures
            (proxy_str ⟨"a", 1⟩) = false ∧
        (runAttempts 0 (fun _ => true)
            [((⟨"a", 1⟩ : ProxyRecord), JobStatus.GenericError)] S5wit).persisted =
          (runAttempts 0 (fun _ => true)
            [((⟨"a", 1⟩ : ProxyRecord), JobStatus.GenericError)] S5wit).proxy_list)) :=
  ⟨⟨by decide, by decide, rfl⟩,
    C5_observed_generic_error_tally_policy 0 (fun _ => true) ⟨"a", 1⟩ S5wit
      (by decide) (by decide) rfl⟩

/-- C6: whenever the proxy pool is empty, the outer loop terminates at its
next while-test (one unit of fuel suffices), returning the completion report
`all(job.IsCompleted ...)` instead of erroring; and a sweep can never
repopulate an empty pool, so emptiness reached mid-sweep still ends the run
right after that sweep. -/
theorem C6_empty_pool_terminates (orc : Oracle) (fuel sIdx sIdx2 : Nat)
    (jl : List Nat) (S : EngineState) (h : S.proxy_list = []) :
    runLoop orc (fuel + 1) sIdx S = (some (S.completed.all (fun b => b)), S) ∧
    (sweepJobs orc sIdx2 jl S).proxy_list = [] := by
  constructor
  · simp only [runLoop, if_pos h]
  · have hsub := sweep_pool_sublist orc sIdx2 jl S
    rw [h] at hsub
    exact List.sublist_nil.mp hsub

theorem C6_witness :
    (S4wit2.proxy_list = []) ∧
    (runLoop orc4wit (2 + 1) 0 S4wit2 =
      (some (S4wit2.completed.all (fun b => b)), S4wit2) ∧
    (sweepJobs orc4wit 7 [0, 1] S4wit2).proxy_list = []) :=
  ⟨rfl, C6_empty_pool_terminates orc4wit 2 0 7 [0, 1] S4wit2 rfl⟩

/-- C7: the work function is never invoked for a job whose output artifact
already existed at Init — every submission logged during any (partial or
complete) run is for a job with a missing artifact — and when every job's
artifact already exists the launcher returns true immediately, for any fuel,
without entering the loop. -/
theorem C7_preexisting_artifact_never_dispatched (orc : Oracle)
    (artifacts : List Bool) (pool0 pers0 : List ProxyRecord) (fuel : Nat) :
    (∀ e ∈ (WebScrapingJobLauncher orc fuel artifacts pool0 pers0).2.invoked,
        artifacts.getD e.1 true = false) ∧
    ((∀ j < artifacts.length, artifacts.getD j true = true) →
        WebScrapingJobLauncher orc fuel artifacts pool0 pers0 =
          (some true, initState artifacts pool0 pers0)) := by
  constructor
  · intro e he
    unfold WebScrapingJobLauncher at he
    by_cases hinc : (initState artifacts pool0 pers0).incomplete_jobs = []
    · rw [if_pos hinc] at he
      have he2 : e ∈ ([] : List (Nat × ProxyRecord)) := he
      cases he2
    · rw [if_neg hinc] at he
      have hGT := GoodState_runLoop artifacts orc fuel 0
        (initState artifacts pool0 pers0) (GoodState_initState artifacts pool0 pers0)
      exact hGT.2.2.2.2.1 e he
  · intro hall
    unfold WebScrapingJobLauncher
    have hinc : (initState artifacts pool0 pers0).incomplete_jobs = [] := by
      show (List.range artifacts.length).filter
        (fun j => ! artifacts.getD j true) = []
      rw [List.filter_eq_nil_iff]
      intro a ha
      rw [hall a (List.mem_range.mp ha)]
      simp
    rw [if_pos hinc]

theorem C7_witness :
    (∀ e ∈ (WebScrapingJobLauncher orc4wit 3 [true, true]
        [⟨"a", 1⟩] [⟨"a", 1⟩]).2.invoked,
      ([true, true] : List Bool).getD e.1 true = false) ∧
    ((∀ j < ([true, true] : List Bool).length,
        ([true, true] : List Bool).getD j true = true) →
      WebScrapingJobLauncher orc4wit 3 [true, true] [⟨"a", 1⟩] [⟨"a", 1⟩] =
        (some true, initState [true, true] [⟨"a", 1⟩] [⟨"a", 1⟩])) :=
  C7_preexisting_artifact_never_dispatched orc4wit [true, true]
    [⟨"a", 1⟩] [⟨"a", 1⟩] 3

/-- C8: the per-job completion flag is monotone — a flag true after a run
with some fuel is still true with any larger fuel, every engine step only
preserving or setting flags — and each job is marked completed at most once:
the `job.IsCompleted = True` event log of any run is duplicate-free. -/
theorem C8_completed_flag_monotone (orc : Oracle) (artifacts : List Bool)
    (pool0 pers0 : List ProxyRecord) (fuel fuel' j : Nat)
    (hle : fuel ≤ fuel')
    (hj : flagAt (WebScrapingJobLauncher orc fuel artifacts
        pool0 pers0).2.completed j = true) :
    flagAt (WebScrapingJobLauncher orc fuel' artifacts
        pool0 pers0).2.completed j = true ∧
    (WebScrapingJobLauncher orc fuel' artifacts pool0 pers0).2.marks.Nodup := by
  unfold WebScrapingJobLauncher at hj ⊢
  by_cases hinc : (initState artifacts pool0 pers0).incomplete_jobs = []
  · rw [if_pos hinc] at hj ⊢
    refine ⟨hj, ?_⟩
    show ([] : List Nat).Nodup
    exact List.nodup_nil
  · rw [if_neg hinc] at hj ⊢
    refine ⟨runLoop_fuel_mono orc j fuel fuel' 0 _ hle hj, ?_⟩
    exact (GoodState_runLoop artifacts orc fuel' 0 _
      (GoodState_initState artifacts pool0 pers0)).2.1

/-- Concrete oracle for the C8 witness: every attempt succeeds. -/
def orc8wit : Oracle :=
  { out := fun _ _ _ => JobStatus.Success, ord := fun _ _ l => l,
    pok := fun _ _ _ => true }

theorem C8_witness :
    (2 ≤ 5 ∧
     flagAt (WebScrapingJobLauncher orc8wit 2 [false] [⟨"a", 1⟩]
        [⟨"a", 1⟩]).2.completed 0 = true) ∧
    (flagAt (WebScrapingJobLauncher orc8wit 5 [false] [⟨"a", 1⟩]
        [⟨"a", 1⟩]).2.completed 0 = true ∧
     (WebScrapingJobLauncher orc8wit 5 [false] [⟨"a", 1⟩]
        [⟨"a", 1⟩]).2.marks.Nodup) :=
  ⟨⟨by decide, by decide⟩,
    C8_completed_flag_monotone orc8wit [false] [⟨"a", 1⟩] [⟨"a", 1⟩] 2 5 0
      (by decide) (by decide)⟩

/-- C9: a persistence-write failure never aborts the run and never changes
the engine's decisions — the returned boolean and the whole core state (pool,
tally, flags, incomplete list, submissions, marks) are identical whatever
subset of writes fails, only the backing store and the failure-report log
differ — and a failed write is reported (the report counter is bumped) while
the in-memory eviction still happens.  (`WriteJson` is modelled from the
spec; its body is not in the sources.) -/
theorem C9_persist_failure_does_not_abort (orc1 orc2 : Oracle) (fuel : Nat)
    (artifacts : List Bool) (pool0 pers0 pers0' : List ProxyRecord)
    (hout : orc1.out = orc2.out) (hord : orc1.ord = orc2.ord) :
    (WebScrapingJobLauncher orc1 fuel artifacts pool0 pers0).1 =
      (WebScrapingJobLauncher orc2 fuel artifacts pool0 pers0').1 ∧
    coreView (WebScrapingJobLauncher orc1 fuel artifacts pool0 pers0).2 =
      coreView (WebScrapingJobLauncher orc2 fuel artifacts pool0 pers0').2 ∧
    (∀ (jb : Nat) (pk : ProxyRecord → Bool) (p : ProxyRecord) (S : EngineState),
        p ∈ S.proxy_list → pk p = false →
        (runAttempts jb pk [(p, JobStatus.PageConnectionError)] S).proxy_list =
          S.proxy_list.erase p ∧
        (runAttempts jb pk [(p, JobStatus.PageConnectionError)] S).persisted =
          S.persisted ∧
        (runAttempts jb pk
            [(p, JobStatus.PageConnectionError)] S).persistFails =
          S.persistFails + 1) := by
  have hmain :
      (WebScrapingJobLauncher orc1 fuel artifacts pool0 pers0).1 =
        (WebScrapingJobLauncher orc2 fuel artifacts pool0 pers0').1 ∧
      coreView (WebScrapingJobLauncher orc1 fuel artifacts pool0 pers0).2 =
        coreView (WebScrapingJobLauncher orc2 fuel artifacts pool0 pers0').2 := by
    unfold WebScrapingJobLauncher
    by_cases hinc : (initState artifacts pool0 pers0).incomplete_jobs = []
    · have hinc' : (initState artifacts pool0 pers0').incomplete_jobs = [] := hinc
      rw [if_pos hinc, if_pos hinc']
      exact ⟨rfl, rfl⟩
    · have hinc' : ¬ (initState artifacts pool0 pers0').incomplete_jobs = [] := hinc
      rw [if_neg hinc, if_neg hinc']
      exact runLoop_pok_congr orc1 orc2 hout hord fuel 0
        (initState artifacts pool0 pers0) (initState artifacts pool0 pers0') rfl
  refine ⟨hmain.1, hmain.2, ?_⟩
  intro jb pk p S hp hpk
  simp only [runAttempts, if_pos hp]
  refine ⟨rfl, ?_, ?_⟩
  · show (if pk p then S.proxy_list.erase p else S.persisted) = S.persisted
    rw [hpk]
    simp
  · show (if pk p then S.persistFails else S.persistFails + 1) =
      S.persistFails + 1
    rw [hpk]
    simp

/-- Concrete oracle for the C9 witness: like `orc8wit` but every persistence
write fails. -/
def orc9wit : Oracle :=
  { out := fun _ _ _ => JobStatus.Success, ord := fun _ _ l => l,
    pok := fun _ _ _ => false }

theorem C9_witness :
    (orc8wit.out = orc9wit.out ∧ orc8wit.ord = orc9wit.ord) ∧
    ((WebScrapingJobLauncher orc8wit 2 [false] [⟨"a", 1⟩] [⟨"a", 1⟩]).1 =
      (WebScrapingJobLauncher orc9wit 2 [false] [⟨"a", 1⟩] []).1 ∧
    coreView (WebScrapingJobLauncher orc8wit 2 [false] [⟨"a", 1⟩]
        [⟨"a", 1⟩]).2 =
      coreView (WebScrapingJobLauncher orc9wit 2 [false] [⟨"a", 1⟩] []).2 ∧
    (∀ (jb : Nat) (pk : ProxyRecord → Bool) (p : ProxyRecord) (S : EngineState),
        p ∈ S.proxy_list → pk p = false →
        (runAttempts jb pk [(p, JobStatus.PageConnectionError)] S).proxy_list =
          S.proxy_list.erase p ∧
        (runAttempts jb pk [(p, JobStatus.PageConnectionError)] S).persisted =
          S.persisted ∧
        (runAttempts jb pk
            [(p, JobStatus.PageConnectionError)] S).persistFails =
          S.persistFails + 1)) :=
  ⟨⟨rfl, rfl⟩,
    C9_persist_failure_does_not_abort orc8wit orc9wit 2 [false] [⟨"a", 1⟩]
      [⟨"a", 1⟩] [] rfl rfl⟩

/-- C10: the pool only ever shrinks — after any round, any sweep, and any
(partial or complete) run, the pool is an order-preserving sublist of what it
was before (of the initially loaded list, for a run); no proxy record is ever
inserted after the initial load. -/
theorem C10_pool_only_shrinks (orc : Oracle) (fuel sIdx jb : Nat)
    (pok : ProxyRecord → Bool) (l : List (ProxyRecord × JobStatus))
    (jl : List Nat) (S : EngineState) (artifacts : List Bool)
    (pool0 pers0 : List ProxyRecord) :
    List.Sublist (runAttempts jb pok l S).proxy_list S.proxy_list ∧
    List.Sublist (sweepJobs orc sIdx jl S).proxy_list S.proxy_list ∧
    List.Sublist (WebScrapingJobLauncher orc fuel artifacts pool0
        pers0).2.proxy_list pool0 := by
  refine ⟨ra_pool_sublist jb pok l S, sweep_pool_sublist orc sIdx jl S, ?_⟩
  unfold WebScrapingJobLauncher
  by_cases hinc : (initState artifacts pool0 pers0).incomplete_jobs = []
  · rw [if_pos hinc]
    exact List.Sublist.refl _
  · rw [if_neg hinc]
    exact runLoop_pool_sublist orc fuel 0 _
